import Mathlib

/-!
Shallow embedding of `src/manpage.rs` (structopt-derive-manpage): the data
model (`TakesValue`, `Flag`, `Subcommand`, `Manpage`), the fluent setters,
the mdoc renderer (`impl Display for Manpage`) and the finalizer
(`impl Drop for Manpage`), together with proofs about the
specification claims of the repository.

Strings are modelled by Lean `String` (a wrapper around `List Char`).
The Rust `str::trim` (Unicode whitespace) is modelled by trimming
`Char.isWhitespace` characters; `str::trim_matches(c)` /
`str::trim_end_matches(c)` strip every leading/trailing occurrence of `c`,
and are modelled by `trimMatches` / `trimEndMatches` below.  File paths
are modelled as strings; the file system of the finalizer is an oracle
`String → FSOutcome` saying whether creating/writing a given path succeeds.
-/

namespace StructoptManpage

/-! ## Generic string helpers (model of Rust `str` primitives) -/

/-- Drop every trailing character satisfying `p`. -/
def dropTrailing (p : Char → Bool) (l : List Char) : List Char :=
  (l.reverse.dropWhile p).reverse

/-- Model of Rust `str::trim_matches(c)` on character lists: strip every
leading and trailing occurrence of `c`. -/
def trimMatchesL (c : Char) (l : List Char) : List Char :=
  dropTrailing (fun a => a == c) (l.dropWhile (fun a => a == c))

/-- Model of Rust `str::trim_matches(c)`. -/
def trimMatches (c : Char) (s : String) : String :=
  String.mk (trimMatchesL c s.data)

/-- Model of Rust `str::trim_end_matches(c)`. -/
def trimEndMatches (c : Char) (s : String) : String :=
  String.mk (dropTrailing (fun a => a == c) s.data)

/-- Model of Rust `str::trim` on character lists. -/
def trimL (l : List Char) : List Char :=
  dropTrailing Char.isWhitespace (l.dropWhile Char.isWhitespace)

/-- Model of Rust `str::trim`. -/
def trimStr (s : String) : String :=
  String.mk (trimL s.data)

/-- Model of Rust `str::to_uppercase` (ASCII fragment, per-character). -/
def toUpperStr (s : String) : String :=
  String.mk (s.data.map Char.toUpper)

/-! ## Data model (`manpage.rs` lines 14-95) -/

/-- Argument arity, `struct TakesValue` (manpage.rs:14-18). -/
structure TakesValue where
  kind : Option String
  multiple : Bool
deriving DecidableEq, Repr

/-- One CLI flag, `struct Flag` (manpage.rs:20-26). -/
structure Flag where
  long : Option String
  short : Option String
  args : Option TakesValue
  doc : Option String
deriving DecidableEq, Repr

/-- A named subcommand, `struct Subcommand` (manpage.rs:54-60). -/
structure Subcommand where
  name : String
  args : Option TakesValue
  flags : List Flag
  doc : Option String
deriving DecidableEq, Repr

/-- The aggregate root, `struct Manpage` (manpage.rs:81-95).  The two
`HashMap<Option<String>, String>` fields are modelled as association
lists; paths (`PathBuf`) are modelled as strings. -/
structure Manpage where
  name : String
  description : Option String
  long_description : Option String
  author : Option String
  version : Option String
  path : Option String
  header_path : Option String
  footer_path : Option String
  flags : List Flag
  subcommands : List Subcommand
  short_flags : List (Option String × String)
  long_flags : List (Option String × String)
deriving DecidableEq, Repr

/-! ## Builder contract (fluent setters) -/

/-- Model of `Flag::new` (manpage.rs:29-31). -/
def Flag.new : Flag :=
  ⟨none, none, none, none⟩

/-- Model of `Flag::long` (manpage.rs:33-36): stores the value with all surrounding
double-quote characters trimmed. -/
def Flag.setLong (f : Flag) (val : String) : Flag :=
  { f with long := some (trimMatches '\"' val) }

/-- Model of `Flag::short` (manpage.rs:38-41). -/
def Flag.setShort (f : Flag) (val : String) : Flag :=
  { f with short := some (trimMatches '\"' val) }

/-- Model of `Flag::doc` (manpage.rs:43-46). -/
def Flag.setDoc (f : Flag) (val : String) : Flag :=
  { f with doc := some (trimMatches '\"' val) }

/-- Model of `Flag::args` (manpage.rs:48-51). -/
def Flag.setArgs (f : Flag) (val : TakesValue) : Flag :=
  { f with args := some val }

/-- Model of `Subcommand::new` (manpage.rs:63-68). -/
def Subcommand.new (name : String) : Subcommand :=
  ⟨name, none, [], none⟩

/-- Model of `Subcommand::doc` (manpage.rs:70-73). -/
def Subcommand.setDoc (c : Subcommand) (val : String) : Subcommand :=
  { c with doc := some (trimMatches '\"' val) }

/-- Model of `Subcommand::flags` (manpage.rs:75-78). -/
def Subcommand.setFlags (c : Subcommand) (val : List Flag) : Subcommand :=
  { c with flags := val }

/-- Model of `Manpage::new` (manpage.rs:98-100). -/
def Manpage.new : Manpage :=
  ⟨"", none, none, none, none, none, none, none, [], [], [], []⟩

/-- Model of `Manpage::name` (manpage.rs:102-105). -/
def Manpage.setName (m : Manpage) (val : String) : Manpage :=
  { m with name := trimMatches '\"' val }

/-- Model of `Manpage::path` (manpage.rs:107-110). -/
def Manpage.setPath (m : Manpage) (val : String) : Manpage :=
  { m with path := some val }

/-- Model of `Manpage::header_path` (manpage.rs:112-115). -/
def Manpage.setHeaderPath (m : Manpage) (val : String) : Manpage :=
  { m with header_path := some val }

/-- Model of `Manpage::footer_path` (manpage.rs:117-120). -/
def Manpage.setFooterPath (m : Manpage) (val : String) : Manpage :=
  { m with footer_path := some val }

/-- Model of `Manpage::description` (manpage.rs:122-125). -/
def Manpage.setDescription (m : Manpage) (val : Option String) : Manpage :=
  { m with description := val.map (fun v => trimMatches '\"' v) }

/-- Model of `Manpage::author` (manpage.rs:127-130). -/
def Manpage.setAuthor (m : Manpage) (val : Option String) : Manpage :=
  { m with author := val.map (fun v => trimMatches '\"' v) }

/-- Model of `Manpage::version` (manpage.rs:132-135). -/
def Manpage.setVersion (m : Manpage) (val : Option String) : Manpage :=
  { m with version := val.map (fun v => trimMatches '\"' v) }

/-- Model of `Manpage::long_description` (manpage.rs:137-140). -/
def Manpage.setLongDescription (m : Manpage) (val : Option String) : Manpage :=
  { m with long_description := val.map (fun v => trimMatches '\"' v) }

/-- Model of `HashMap::insert` on the association-list model: replaces any previous
binding of the key. -/
def insertAssoc (k : Option String) (v : String)
    (l : List (Option String × String)) : List (Option String × String) :=
  (k, v) :: l.filter (fun p => p.1 ≠ k)

/-- Model of `Manpage::push_short_flag` (manpage.rs:142-145). -/
def Manpage.push_short_flag (m : Manpage) (owner : Option String)
    (ident : String) : Manpage :=
  { m with short_flags := insertAssoc owner ident m.short_flags }

/-- Model of `Manpage::push_long_flag` (manpage.rs:147-150). -/
def Manpage.push_long_flag (m : Manpage) (owner : Option String)
    (ident : String) : Manpage :=
  { m with long_flags := insertAssoc owner ident m.long_flags }

/-- Model of `Manpage::push_subcommand` (manpage.rs:152-168): converts the transient
`cmd` into a `Subcommand` (its `path` is discarded since `Subcommand` has no
path; `doc` is set from `description` and then overwritten by
`long_description` when present; the flag list is moved over) and appends it
to the subcommand list. -/
def Manpage.push_subcommand (m : Manpage) (cmd : Manpage) : Manpage :=
  let val := Subcommand.new cmd.name
  let val := match cmd.description with
    | some v => val.setDoc v
    | none => val
  let val := match cmd.long_description with
    | some v => val.setDoc v
    | none => val
  let val := val.setFlags cmd.flags
  { m with subcommands := m.subcommands ++ [val] }

/-! ## Renderer (`impl Display for Manpage`, manpage.rs:171-381) -/

/-- The flag label of the top-level synopsis and flag table
(manpage.rs:183-194): `None` means the flag is skipped (`continue`). -/
def flagLabel (long short : Option String) : Option String :=
  match long, short with
  | some l, some s =>
    if l = s then some (".Op Fl -" ++ l)
    else some (".Op Fl -" ++ l ++ " | -" ++ s)
  | none, none => none
  | none, some v => some (".Op Fl -" ++ v)
  | some v, none => some (".Op Fl -" ++ v)

/-- The flag label used inside a subcommand item (manpage.rs:285-296). -/
def subFlagLabel (long short : Option String) : Option String :=
  match long, short with
  | some l, some s =>
    if l = s then some (".Fl -" ++ l)
    else some (".Fl -" ++ l ++ " | -" ++ s)
  | none, none => none
  | none, some v => some (".Fl -" ++ v)
  | some v, none => some (".Fl -" ++ v)

/-- The argument suffix of a flag line (manpage.rs:195-229 and 297-331):
placeholder is the `kind` of the arity if given, else the long name, else the
short name, else `"ARGUMENT"`; `" ..."` is appended when `multiple`. -/
def argSuffix (args : Option TakesValue) (long short : Option String) :
    String :=
  match args with
  | some ⟨kind, true⟩ =>
    " Ar " ++ (match kind with
      | some v => v
      | none => (long.or short).getD "ARGUMENT") ++ " ..."
  | some ⟨kind, false⟩ =>
    " Ar " ++ (match kind with
      | some v => v
      | none => (long.or short).getD "ARGUMENT")
  | none => ""

/-- The argument suffix of a subcommand header (manpage.rs:248-276): the
placeholder is the `kind` of the arity if given, else `"ARGUMENT"` (no name
fallback). -/
def cmdArgSuffix (args : Option TakesValue) : String :=
  match args with
  | some ⟨kind, true⟩ => " Ar " ++ kind.getD "ARGUMENT" ++ " ..."
  | some ⟨kind, false⟩ => " Ar " ++ kind.getD "ARGUMENT"
  | none => ""

/-- The four trimming steps applied to a documentation string before
emission (manpage.rs:234-237, 334-337, 346-349): trim whitespace, strip
leading/trailing periods, strip leading/trailing double quotes, strip
periods again. -/
def docNorm (doc : String) : String :=
  trimMatches '.' (trimMatches '\"' (trimMatches '.' (trimStr doc)))

/-- Documentation emission in the flag table (manpage.rs:238): the doc
after `docNorm` and one more whitespace trim, followed by a period and a
newline. -/
def docEmitFT (doc : String) : String :=
  trimStr (docNorm doc) ++ ".\n"

/-- Documentation emission on a subcommand flag line and as a subcommand
trailing paragraph (manpage.rs:338 and 350): the doc after `docNorm`,
followed by a period and a newline. -/
def docEmit (doc : String) : String :=
  docNorm doc ++ ".\n"

/-- The per-flag `line` of the top-level loop (manpage.rs:182-230): label
plus argument suffix plus newline; `none` when the flag is skipped. -/
def flagLineOf (f : Flag) : Option String :=
  match flagLabel f.long f.short with
  | none => none
  | some lbl => some (lbl ++ argSuffix f.args f.long f.short ++ "\n")

/-- The top-level flag loop (manpage.rs:175-241), threading the `synopsis`
and `flag_table` accumulators.  The flag-table item reuses `line` with the
`".Op"` prefix removed (`line.strip_prefix(".Op").unwrap().trim()`,
manpage.rs:231-232; every produced line starts with `".Op"`, so
`strip_prefix` is modelled as dropping 3 characters). -/
def flagsLoop : List Flag → String → String → String × String
  | [], synopsis, flag_table => (synopsis, flag_table)
  | f :: rest, synopsis, flag_table =>
    match flagLineOf f with
    | none => flagsLoop rest synopsis flag_table
    | some line =>
      let flag_table := flag_table ++ ".It " ++ trimStr (line.drop 3) ++ "\n"
      let flag_table := match f.doc with
        | some doc => flag_table ++ docEmitFT doc
        | none => flag_table
      flagsLoop rest (synopsis ++ line) flag_table

/-- The per-flag `line` of a subcommand item (manpage.rs:277-339): leading
newline, label, argument suffix, newline, then the normalized documentation
if present; `none` when the flag is skipped. -/
def subFlagLineOf (f : Flag) : Option String :=
  match subFlagLabel f.long f.short with
  | none => none
  | some lbl =>
    let line := "\n" ++ lbl ++ argSuffix f.args f.long f.short ++ "\n"
    match f.doc with
    | some doc => some (line ++ docEmit doc)
    | none => some line

/-- The flag loop inside one subcommand item (manpage.rs:277-343): the line
is appended unless it trims to the empty string (manpage.rs:340-342). -/
def subFlagsLoop : List Flag → String → String
  | [], acc => acc
  | f :: rest, acc =>
    match subFlagLineOf f with
    | none => subFlagsLoop rest acc
    | some line =>
      subFlagsLoop rest (if (trimStr line).isEmpty then acc else acc ++ line)

/-- The subcommand loop (manpage.rs:246-352). -/
def subcommandsLoop : List Subcommand → String → String
  | [], acc => acc
  | cmd :: rest, acc =>
    let acc := acc ++ ".It Ic " ++ cmd.name ++ cmdArgSuffix cmd.args
    let acc := subFlagsLoop cmd.flags acc
    let acc := acc ++ "\n"
    let acc := match cmd.doc with
      | some doc => acc ++ docEmit doc
      | none => acc
    subcommandsLoop rest acc

/-- The fully accumulated `synopsis` string (manpage.rs:173, 240). -/
def synopsisStr (m : Manpage) : String :=
  (flagsLoop m.flags ".Nm\n" ".Bl -tag -width flag -offset indent\n").1

/-- The fully accumulated `flag_table` string (manpage.rs:174, 242). -/
def flagTableStr (m : Manpage) : String :=
  (flagsLoop m.flags ".Nm\n" ".Bl -tag -width flag -offset indent\n").2
    ++ ".El\n"

/-- The fully accumulated `subcommands` string (manpage.rs:243-353). -/
def subcommandsStr (m : Manpage) : String :=
  subcommandsLoop m.subcommands ".Bl -tag -width Ds -compact -offset indent\n"
    ++ ".El\n.Pp\n"

/-- The rendered body (manpage.rs:354-380): each part is emitted trimmed,
or entirely omitted (together with its separating newline) when the
corresponding list is empty; a final newline ends the output. -/
def render (m : Manpage) : String :=
  (if m.flags.isEmpty then "" else trimStr (synopsisStr m))
    ++ (if m.flags.isEmpty then "" else "\n")
    ++ (if m.flags.isEmpty then "" else trimStr (flagTableStr m))
    ++ (if m.subcommands.isEmpty then "" else "\n")
    ++ (if m.subcommands.isEmpty then "" else trimStr (subcommandsStr m))
    ++ "\n"

/-! ## Finalizer (`impl Drop for Manpage`, manpage.rs:383-443)

The file system is an oracle `fs : String → FSOutcome` telling, for each
path, whether `File::create` fails, `write_all` fails, or both succeed.
The observable effects of `drop` are collected in a `DropLog`: the paths on
which creation was attempted (in order), the successful writes (path and
content, in order), and the diagnostics printed to stderr.  `drop` returns
only this log — there is no error channel to the caller. -/

/-- Outcome of `File::create` + `write_all` at one path. -/
inductive FSOutcome where
  | ok : FSOutcome
  | createErr : FSOutcome
  | writeErr : FSOutcome
deriving DecidableEq, Repr

/-- A diagnostic printed to stderr: a creation failure or a write failure
at a given path (manpage.rs:389 and manpage.rs:397). -/
inductive Diag where
  | create : String → Diag
  | write : String → Diag
deriving DecidableEq, Repr

/-- Observable effects of the finalizer. -/
structure DropLog where
  attempts : List String
  written : List (String × String)
  diags : List Diag
deriving DecidableEq, Repr

/-- The `write_to_file!` macro body (manpage.rs:385-403): attempt
`File::create`, then `write_all`; on either failure print a diagnostic and
signal early return (`false`). -/
def writeToFile (fs : String → FSOutcome) (path content : String)
    (log : DropLog) : DropLog × Bool :=
  let log := { log with attempts := log.attempts ++ [path] }
  match fs path with
  | .createErr => ({ log with diags := log.diags ++ [.create path] }, false)
  | .writeErr => ({ log with diags := log.diags ++ [.write path] }, false)
  | .ok => ({ log with written := log.written ++ [(path, content)] }, true)

/-- The fixed-template header artifact (manpage.rs:410-426). -/
def headerString (m : Manpage) : String :=
  ".Dd $Mdocdate$\n.Dt " ++ trimMatches '\"' (toUpperStr m.name)
    ++ " 1\n.Os\n.Sh NAME\n.Nm " ++ trimMatches '\"' m.name
    ++ "\n.Nd "
    ++ trimEndMatches '.' (trimMatches '\"' (m.description.getD ""))
    ++ "."

/-- The fixed-template footer artifact (manpage.rs:431-439). -/
def footerString (m : Manpage) : String :=
  ".Sh AUTHORS\n" ++ trimMatches '\"' (m.author.getD "")

/-- Third step of `drop` (manpage.rs:430-441): the footer write. -/
def dropFooter (fs : String → FSOutcome) (m : Manpage) (log : DropLog) :
    DropLog :=
  match m.footer_path with
  | some p => (writeToFile fs p (footerString m) log).1
  | none => log

/-- Second step of `drop` (manpage.rs:409-428): the header write; a failure
returns from the whole `drop`, skipping the footer. -/
def dropHeader (fs : String → FSOutcome) (m : Manpage) (log : DropLog) :
    DropLog :=
  match m.header_path with
  | some p =>
    match writeToFile fs p (headerString m) log with
    | (log, false) => log
    | (log, true) => dropFooter fs m log
  | none => dropFooter fs m log

/-- Model of `Drop::drop` (manpage.rs:384-442): write the rendered body to `path`,
then the header to `header_path`, then the footer to `footer_path`; a
failed create or write prints a diagnostic and returns early, abandoning
all remaining targets.  The function is total and returns only the log:
no error is propagated to the caller. -/
def dropManpage (fs : String → FSOutcome) (m : Manpage) : DropLog :=
  match m.path with
  | some p =>
    match writeToFile fs p (render m) ⟨[], [], []⟩ with
    | (log, false) => log
    | (log, true) => dropHeader fs m log
  | none => dropHeader fs m ⟨[], [], []⟩

/-! ## Specification-side definitions used by individual claims -/

/-- Normalization rule as the renderer applies it at the subcommand sites:
the four trimming steps, then exactly one appended period. -/
def normalizeDoc (doc : String) : String :=
  docNorm doc ++ "."

/-- Normalization as the renderer applies it in the top-level flag table:
the four trimming steps, a further whitespace trim, then one period. -/
def normalizeDocFT (doc : String) : String :=
  trimStr (docNorm doc) ++ "."

/-- Modelled from the claim wording of C2 (the uncorrected rule): strip one
single layer of surrounding double quotes, i.e. one leading and one
trailing quote character when both are present. -/
def stripQuoteLayer (s : String) : String :=
  match s.data with
  | '\"' :: rest =>
    if rest.getLast? = some '\"' then String.mk rest.dropLast else s
  | _ => s

/-- Modelled from the claim wording of C2: trim whitespace, strip
leading/trailing periods, strip one quote layer, strip periods again,
append exactly one period. -/
def normalizeSpecOneLayer (doc : String) : String :=
  trimMatches '.' (stripQuoteLayer (trimMatches '.' (trimStr doc))) ++ "."

/-- Both boundary characters of `s` satisfy: not whitespace, not a period,
not a double quote. -/
def charOk (c : Char) : Bool :=
  !c.isWhitespace && !(c == '.') && !(c == '\"')

/-- Boundary check used by the amended idempotence claim. -/
def boundaryOk (t : String) : Bool :=
  (match t.data.head? with
    | some c => charOk c
    | none => true)
  && (match t.data.getLast? with
    | some c => charOk c
    | none => true)

/-- Neither boundary character of `s` is a double quote. -/
def noBoundaryQuote (s : String) : Bool :=
  (match s.data.head? with
    | some c => !(c == '\"')
    | none => true)
  && (match s.data.getLast? with
    | some c => !(c == '\"')
    | none => true)

/-! ## Concrete instances used by witnesses and counterexamples -/

/-- A page with all three output paths set. -/
def mAll : Manpage :=
  { Manpage.new with
    name := "prog"
    description := some "desc"
    author := some "me"
    path := some "body.mdoc"
    header_path := some "header.mdoc"
    footer_path := some "footer.mdoc" }

/-- A page with one (labelled) flag and one subcommand, so that both
rendered blocks are present. -/
def mBlocks : Manpage :=
  { Manpage.new with
    flags := [⟨some "a", none, none, none⟩]
    subcommands := [⟨"sub", none, [], none⟩] }

/-- A page equal to `mAll` except for the two auxiliary maps. -/
def mAllMaps : Manpage :=
  { mAll with
    short_flags := [(none, "v")]
    long_flags := [(some "owner", "verbose")] }


/-! ## Helper lemmas about the trimming primitives -/

theorem str_ext {a b : String} (h : a.data = b.data) : a = b :=
  String.ext h

@[simp]
theorem str_data_append (a b : String) : (a ++ b).data = a.data ++ b.data :=
  String.data_append a b

theorem str_append_assoc (a b c : String) : a ++ b ++ c = a ++ (b ++ c) :=
  str_ext (by simp [List.append_assoc])

@[simp]
theorem str_empty_append (s : String) : "" ++ s = s :=
  str_ext (by simp)

@[simp]
theorem str_append_empty (s : String) : s ++ "" = s :=
  str_ext (by simp)



theorem head?_dropWhile_not (p : Char → Bool) (l : List Char) (c : Char)
    (h : (l.dropWhile p).head? = some c) : p c = false := by
  induction l with
  | nil => simp [List.dropWhile] at h
  | cons a l ih =>
    rw [List.dropWhile_cons] at h
    by_cases hpa : p a = true
    · exact ih (by simpa [hpa] using h)
    · rw [if_neg hpa] at h
      simp only [List.head?_cons, Option.some.injEq] at h
      subst h
      exact Bool.not_eq_true _ ▸ hpa

theorem dropWhile_eq_self (p : Char → Bool) (l : List Char)
    (h : ∀ c, l.head? = some c → p c = false) : l.dropWhile p = l := by
  cases l with
  | nil => rfl
  | cons a l =>
    rw [List.dropWhile_cons, if_neg (by simp [h a rfl])]

theorem dropTrailing_eq_self (p : Char → Bool) (l : List Char)
    (h : ∀ c, l.getLast? = some c → p c = false) : dropTrailing p l = l := by
  unfold dropTrailing
  rw [dropWhile_eq_self p l.reverse
    (fun c hc => h c (by rwa [List.head?_reverse] at hc)),
    List.reverse_reverse]

theorem getLast?_dropTrailing_not (p : Char → Bool) (l : List Char)
    (c : Char) (h : (dropTrailing p l).getLast? = some c) : p c = false := by
  unfold dropTrailing at h
  rw [List.getLast?_reverse] at h
  exact head?_dropWhile_not p l.reverse c h

theorem dropTrailing_prefix (p : Char → Bool) (l : List Char) :
    dropTrailing p l <+: l := by
  unfold dropTrailing
  have h := List.reverse_prefix.mpr
    ((List.dropWhile_suffix p : _ <:+ l.reverse))
  rwa [List.reverse_reverse] at h

theorem head?_dropTrailing (p : Char → Bool) (l : List Char) (c : Char)
    (h : (dropTrailing p l).head? = some c) : l.head? = some c := by
  obtain ⟨t, ht⟩ := dropTrailing_prefix p l
  cases hdt : dropTrailing p l with
  | nil => rw [hdt] at h; simp at h
  | cons a xs =>
    rw [hdt] at h ht
    simp only [List.head?_cons, Option.some.injEq] at h
    subst h
    rw [← ht]
    rfl

theorem head?_trimL_not (l : List Char) (c : Char)
    (h : (trimL l).head? = some c) : c.isWhitespace = false :=
  head?_dropWhile_not _ l c (head?_dropTrailing _ _ c h)

theorem getLast?_trimL_not (l : List Char) (c : Char)
    (h : (trimL l).getLast? = some c) : c.isWhitespace = false :=
  getLast?_dropTrailing_not _ _ c h

theorem dropTrailing_append_single (p : Char → Bool) (l : List Char)
    (c : Char) (hc : p c = true)
    (h : ∀ a, l.getLast? = some a → p a = false) :
    dropTrailing p (l ++ [c]) = l := by
  unfold dropTrailing
  rw [List.reverse_append]
  show ((c :: l.reverse).dropWhile p).reverse = l
  rw [List.dropWhile_cons, if_pos hc,
    dropWhile_eq_self p l.reverse
      (fun a ha => h a (by rwa [List.head?_reverse] at ha)),
    List.reverse_reverse]

theorem trimMatchesL_eq_self (c : Char) (l : List Char)
    (h1 : ∀ a, l.head? = some a → (a == c) = false)
    (h2 : ∀ a, l.getLast? = some a → (a == c) = false) :
    trimMatchesL c l = l := by
  unfold trimMatchesL
  rw [dropWhile_eq_self _ l h1, dropTrailing_eq_self _ l h2]

theorem trimL_eq_self (l : List Char)
    (h1 : ∀ a, l.head? = some a → a.isWhitespace = false)
    (h2 : ∀ a, l.getLast? = some a → a.isWhitespace = false) :
    trimL l = l := by
  unfold trimL
  rw [dropWhile_eq_self _ l h1, dropTrailing_eq_self _ l h2]

theorem trimMatchesL_wrap (c : Char) (l : List Char)
    (h1 : ∀ a, l.head? = some a → (a == c) = false)
    (h2 : ∀ a, l.getLast? = some a → (a == c) = false) :
    trimMatchesL c (c :: (l ++ [c])) = l := by
  unfold trimMatchesL
  rw [List.dropWhile_cons, if_pos (by simp)]
  cases l with
  | nil =>
    rw [List.nil_append]
    rw [List.dropWhile_cons, if_pos (by simp)]
    rfl
  | cons a xs =>
    rw [List.cons_append]
    rw [List.dropWhile_cons, if_neg (by simp [h1 a rfl])]
    rw [← List.cons_append]
    exact dropTrailing_append_single _ _ c (by simp) h2

theorem boundaryOk_head {t : String} (h : boundaryOk t = true) (a : Char)
    (ha : t.data.head? = some a) : charOk a = true := by
  unfold boundaryOk at h
  rw [ha, Bool.and_eq_true] at h
  exact h.1

theorem boundaryOk_last {t : String} (h : boundaryOk t = true) (a : Char)
    (ha : t.data.getLast? = some a) : charOk a = true := by
  unfold boundaryOk at h
  rw [ha, Bool.and_eq_true] at h
  exact h.2

theorem charOk_ws {a : Char} (h : charOk a = true) : a.isWhitespace = false := by
  unfold charOk at h
  simp only [Bool.and_eq_true, Bool.not_eq_true'] at h
  exact h.1.1

theorem charOk_dot {a : Char} (h : charOk a = true) : (a == '.') = false := by
  unfold charOk at h
  simp only [Bool.and_eq_true, Bool.not_eq_true'] at h
  exact h.1.2

theorem charOk_quote {a : Char} (h : charOk a = true) :
    (a == '\"') = false := by
  unfold charOk at h
  simp only [Bool.and_eq_true, Bool.not_eq_true'] at h
  exact h.2

theorem trimStr_eq_self {t : String} (h : boundaryOk t = true) :
    trimStr t = t := by
  apply str_ext
  show trimL t.data = t.data
  exact trimL_eq_self t.data
    (fun a ha => charOk_ws (boundaryOk_head h a ha))
    (fun a ha => charOk_ws (boundaryOk_last h a ha))

/-- Core computation for the amended idempotence claim: the four trimming
steps applied to `t ++ "."` give back `t` whenever both boundary characters
of `t` are not whitespace, not a period and not a double quote. -/
theorem docNorm_append_period (t : String) (h : boundaryOk t = true) :
    docNorm (t ++ ".") = t := by
  cases hl : t.data with
  | nil =>
    have ht : t = "" := str_ext (by rw [hl])
    subst ht
    decide
  | cons a xs =>
    have hdata : (t ++ ".").data = t.data ++ ['.'] := by
      rw [str_data_append]
    have hhead : (t.data ++ ['.']).head? = some a := by rw [hl]; rfl
    have hlastdot : (t.data ++ ['.']).getLast? = some '.' :=
      List.getLast?_concat _
    have ha : charOk a = true := boundaryOk_head h a (by rw [hl]; rfl)
    -- Step 1: whitespace trim is the identity on `t ++ "."`.
    have h1 : trimStr (t ++ ".") = t ++ "." := by
      apply str_ext
      show trimL (t ++ ".").data = (t ++ ".").data
      rw [hdata]
      exact trimL_eq_self _
        (fun c hc => by rw [hhead] at hc; cases hc; exact charOk_ws ha)
        (fun c hc => by rw [hlastdot] at hc; cases hc; rfl)
    -- Step 2: the first period trim removes exactly the appended period.
    have h2 : trimMatches '.' (t ++ ".") = t := by
      apply str_ext
      show trimMatchesL '.' (t ++ ".").data = t.data
      rw [hdata]
      unfold trimMatchesL
      rw [dropWhile_eq_self _ _
        (fun c hc => by rw [hhead] at hc; cases hc; exact charOk_dot ha)]
      exact dropTrailing_append_single _ _ '.' (by simp)
        (fun c hc => charOk_dot (boundaryOk_last h c hc))
    -- Steps 3 and 4 are the identity on `t`.
    have h3 : trimMatches '\"' t = t := by
      apply str_ext
      exact trimMatchesL_eq_self _ _
        (fun c hc => charOk_quote (boundaryOk_head h c hc))
        (fun c hc => charOk_quote (boundaryOk_last h c hc))
    have h4 : trimMatches '.' t = t := by
      apply str_ext
      exact trimMatchesL_eq_self _ _
        (fun c hc => charOk_dot (boundaryOk_head h c hc))
        (fun c hc => charOk_dot (boundaryOk_last h c hc))
    unfold docNorm
    rw [h1, h2, h3, h4]

/-- Step lemma: `write_to_file!` when both create and write succeed. -/
theorem writeToFile_ok {fs : String → FSOutcome} {p : String}
    (s : String) (log : DropLog) (h : fs p = .ok) :
    writeToFile fs p s log =
      (⟨log.attempts ++ [p], log.written ++ [(p, s)], log.diags⟩, true) := by
  simp [writeToFile, h]

/-- Step lemma: `write_to_file!` when create or write fails. -/
theorem writeToFile_fail {fs : String → FSOutcome} {p : String}
    (s : String) (log : DropLog) (h : fs p ≠ .ok) :
    writeToFile fs p s log =
      (⟨log.attempts ++ [p], log.written,
        log.diags ++ [if fs p = .createErr then .create p else .write p]⟩,
       false) := by
  cases hfs : fs p with
  | ok => exact absurd hfs h
  | createErr => simp [writeToFile, hfs]
  | writeErr => simp [writeToFile, hfs]

/-- Step lemma: a successful body write continues with the header step. -/
theorem dropManpage_body_ok {fs : String → FSOutcome} {m : Manpage}
    {p : String} (hP : m.path = some p) (h : fs p = .ok) :
    dropManpage fs m = dropHeader fs m ⟨[p], [(p, render m)], []⟩ := by
  rw [dropManpage, hP]
  show (match writeToFile fs p (render m) ⟨[], [], []⟩ with
    | (log, false) => log
    | (log, true) => dropHeader fs m log) = _
  rw [writeToFile_ok _ _ h]
  rfl

/-- Step lemma: a failed body write aborts the whole finalization. -/
theorem dropManpage_body_fail {fs : String → FSOutcome} {m : Manpage}
    {p : String} (hP : m.path = some p) (h : fs p ≠ .ok) :
    dropManpage fs m =
      ⟨[p], [], [if fs p = .createErr then .create p else .write p]⟩ := by
  rw [dropManpage, hP]
  show (match writeToFile fs p (render m) ⟨[], [], []⟩ with
    | (log, false) => log
    | (log, true) => dropHeader fs m log) = _
  rw [writeToFile_fail _ _ h]
  rfl

/-- Step lemma: a successful header write continues with the footer step. -/
theorem dropHeader_ok {fs : String → FSOutcome} {m : Manpage} {hp : String}
    (hH : m.header_path = some hp) (h : fs hp = .ok) (log : DropLog) :
    dropHeader fs m log =
      dropFooter fs m
        ⟨log.attempts ++ [hp], log.written ++ [(hp, headerString m)],
         log.diags⟩ := by
  rw [dropHeader, hH]
  show (match writeToFile fs hp (headerString m) log with
    | (log, false) => log
    | (log, true) => dropFooter fs m log) = _
  rw [writeToFile_ok _ _ h]

/-- Step lemma: a failed header write aborts, skipping the footer. -/
theorem dropHeader_fail {fs : String → FSOutcome} {m : Manpage}
    {hp : String} (hH : m.header_path = some hp) (h : fs hp ≠ .ok)
    (log : DropLog) :
    dropHeader fs m log =
      ⟨log.attempts ++ [hp], log.written,
       log.diags
         ++ [if fs hp = .createErr then .create hp else .write hp]⟩ := by
  rw [dropHeader, hH]
  show (match writeToFile fs hp (headerString m) log with
    | (log, false) => log
    | (log, true) => dropFooter fs m log) = _
  rw [writeToFile_fail _ _ h]

/-- Step lemma: the footer write, last in the sequence. -/
theorem dropFooter_ok {fs : String → FSOutcome} {m : Manpage} {fp : String}
    (hF : m.footer_path = some fp) (h : fs fp = .ok) (log : DropLog) :
    dropFooter fs m log =
      ⟨log.attempts ++ [fp], log.written ++ [(fp, footerString m)],
       log.diags⟩ := by
  rw [dropFooter, hF]
  show (writeToFile fs fp (footerString m) log).1 = _
  rw [writeToFile_ok _ _ h]

/-- C1: Finalization failure policy.  During finalization the three writes
(body to `path`, header to `header_path`, footer to `footer_path`) are
attempted in that order; a create or write failure is reported as a
diagnostic and aborts the remainder of the whole finalization step.  For a
`Manpage` with all three paths set: if all writes succeed the log records
exactly the three writes in order and no diagnostic; if the body write
fails nothing is written, only the body path was attempted, and the sole
effect is one diagnostic; if the body write succeeds but the header write
fails, the footer is never attempted.  `dropManpage` returns only a log —
no error is ever raised to the caller. -/
theorem C1_finalization_short_circuit (m : Manpage)
    (fs : String → FSOutcome) (p hp fp : String) (hP : m.path = some p)
    (hH : m.header_path = some hp) (hF : m.footer_path = some fp) :
    (fs p = .ok → fs hp = .ok → fs fp = .ok →
      dropManpage fs m =
        ⟨[p, hp, fp],
         [(p, render m), (hp, headerString m), (fp, footerString m)], []⟩)
    ∧ (fs p ≠ .ok →
      dropManpage fs m =
        ⟨[p], [], [if fs p = .createErr then .create p else .write p]⟩)
    ∧ (fs p = .ok → fs hp ≠ .ok →
      dropManpage fs m =
        ⟨[p, hp], [(p, render m)],
         [if fs hp = .createErr then .create hp else .write hp]⟩) := by
  refine ⟨fun h1 h2 h3 => ?_, fun h1 => ?_, fun h1 h2 => ?_⟩
  · rw [dropManpage_body_ok hP h1, dropHeader_ok hH h2, dropFooter_ok hF h3]
    rfl
  · exact dropManpage_body_fail hP h1
  · rw [dropManpage_body_ok hP h1, dropHeader_fail hH h2]
    rfl

/-- Witness for C1 at a concrete page and file system. -/
theorem C1_witness :
    dropManpage (fun _ => FSOutcome.ok) mAll =
      ⟨["body.mdoc", "header.mdoc", "footer.mdoc"],
       [("body.mdoc", render mAll), ("header.mdoc", headerString mAll),
        ("footer.mdoc", footerString mAll)], []⟩
    ∧ dropManpage (fun p => if p = "body.mdoc" then .createErr else .ok)
        mAll = ⟨["body.mdoc"], [], [.create "body.mdoc"]⟩ := by
  constructor
  · exact (C1_finalization_short_circuit mAll (fun _ => FSOutcome.ok)
      "body.mdoc" "header.mdoc" "footer.mdoc" rfl rfl rfl).1 rfl rfl rfl
  · have h := (C1_finalization_short_circuit mAll
      (fun p => if p = "body.mdoc" then .createErr else .ok)
      "body.mdoc" "header.mdoc" "footer.mdoc" rfl rfl rfl).2.1
      (by decide)
    simpa using h

/-- Counterexample for C2 as stated.  The claim predicts the spec rule
`normalizeSpecOneLayer` (with a single stripped quote layer and no extra
whitespace trim at the flag-table site), but the renderer emits
`docEmit`/`docEmitFT`: on `""q""` the code strips both quote layers, and
on ` .  q  . ` the flag-table site trims interior-boundary whitespace the
rule does not mention. -/
theorem C2_cex :
    docEmit "\"\"q\"\"" = "q.\n"
    ∧ normalizeSpecOneLayer "\"\"q\"\"" ++ "\n" = "\"q\".\n"
    ∧ ("q.\n" : String) ≠ "\"q\".\n"
    ∧ docEmitFT " .  q  . " = "q.\n"
    ∧ normalizeSpecOneLayer " .  q  . " ++ "\n" = "  q  .\n"
    ∧ ("q.\n" : String) ≠ "  q  .\n" := by
  refine ⟨rfl, rfl, by decide, rfl, rfl, by decide⟩

/-- C2 (amended): every documentation string emitted by the renderer (flag
doc in the flag table, flag doc inside a subcommand item, subcommand doc)
equals the input transformed by: trim surrounding whitespace, strip one or
more leading/trailing periods, strip ALL leading/trailing double-quote
characters, strip leading/trailing periods again, then append exactly one
trailing period — where the flag-table site additionally trims surrounding
whitespace once more before the period is appended
(`normalizeDocFT` versus `normalizeDoc`). -/
theorem C2_text_normalization_amended (doc : String) :
    docEmitFT doc = normalizeDocFT doc ++ "\n"
    ∧ docEmit doc = normalizeDoc doc ++ "\n"
    ∧ (∀ f line rest synopsis flag_table, f.doc = some doc →
        flagLineOf f = some line →
        flagsLoop (f :: rest) synopsis flag_table =
          flagsLoop rest (synopsis ++ line)
            (flag_table ++ ".It " ++ trimStr (line.drop 3) ++ "\n"
              ++ (normalizeDocFT doc ++ "\n")))
    ∧ (∀ f lbl, f.doc = some doc → subFlagLabel f.long f.short = some lbl →
        subFlagLineOf f =
          some ("\n" ++ lbl ++ argSuffix f.args f.long f.short ++ "\n"
            ++ (normalizeDoc doc ++ "\n")))
    ∧ (∀ cmd rest acc, cmd.doc = some doc →
        subcommandsLoop (cmd :: rest) acc =
          subcommandsLoop rest
            (subFlagsLoop cmd.flags
                (acc ++ ".It Ic " ++ cmd.name ++ cmdArgSuffix cmd.args)
              ++ "\n" ++ (normalizeDoc doc ++ "\n"))) := by
  have hFT : normalizeDocFT doc ++ "\n" = docEmitFT doc := by
    rw [normalizeDocFT, docEmitFT, str_append_assoc]
    rfl
  have hS : normalizeDoc doc ++ "\n" = docEmit doc := by
    rw [normalizeDoc, docEmit, str_append_assoc]
    rfl
  refine ⟨hFT.symm, hS.symm, ?_, ?_, ?_⟩
  · intro f line rest synopsis flag_table hdoc hline
    rw [hFT, flagsLoop, hline, hdoc]
  · intro f lbl hdoc hlbl
    rw [hS, subFlagLineOf, hlbl, hdoc]
  · intro cmd rest acc hdoc
    rw [hS, subcommandsLoop, hdoc]

/-- Witness for C2 at a concrete documentation string, flag and
subcommand. -/
theorem C2_witness :
    subFlagLineOf ⟨some "a", none, none, some "d"⟩ =
      some ("\n" ++ ".Fl -a" ++ argSuffix none (some "a") none ++ "\n"
        ++ (normalizeDoc "d" ++ "\n"))
    ∧ subcommandsLoop [⟨"sub", none, [], some "d"⟩] ""
      = subcommandsLoop []
          (subFlagsLoop [] ("" ++ ".It Ic " ++ "sub" ++ cmdArgSuffix none)
            ++ "\n" ++ (normalizeDoc "d" ++ "\n")) := by
  constructor
  · exact (C2_text_normalization_amended "d").2.2.2.1
      ⟨some "a", none, none, some "d"⟩ ".Fl -a" rfl rfl
  · exact (C2_text_normalization_amended "d").2.2.2.2
      ⟨"sub", none, [], some "d"⟩ [] "" rfl

/-- Counterexample for C3 as stated.  The string `"x".` IS the output of
the normalization rule (on the input `"."x"."`), yet normalizing it again
yields `x.` — so normalization is not idempotent on every output of the
rule. -/
theorem C3_cex :
    normalizeDoc "\".\"x\".\"" = "\"x\"."
    ∧ normalizeDoc "\"x\"." = "x."
    ∧ ("\"x\"." : String) ≠ "x." := by
  refine ⟨by decide, by decide, by decide⟩

/-- C3 (amended): the normalization rule is idempotent on every normalized
string whose text before the final appended period neither starts nor ends
with a whitespace, period or double-quote character (so in particular on
`"Foo."`); it is not idempotent on outputs whose text retains such
boundary characters (see the counterexample). -/
theorem C3_normalization_idempotent_amended (t : String)
    (h : boundaryOk t = true) :
    normalizeDoc (t ++ ".") = t ++ "."
    ∧ normalizeDocFT (t ++ ".") = t ++ "." := by
  constructor
  · rw [normalizeDoc, docNorm_append_period t h]
  · rw [normalizeDocFT, docNorm_append_period t h, trimStr_eq_self h]

/-- Witness for C3: renormalizing `Foo.` yields `Foo.` unchanged. -/
theorem C3_witness :
    normalizeDoc ("Foo" ++ ".") = "Foo" ++ "."
    ∧ normalizeDocFT ("Foo" ++ ".") = "Foo" ++ "." :=
  C3_normalization_idempotent_amended "Foo" (by decide)

/-- C4: Flag label rule.  If both names are present and identical the label
is a single long-form label; if both are present and different it is
"long-form OR short-form"; if exactly one is present it is that one — in
both the synopsis/flag-table rendering (`flagLabel`) and the subcommand
rendering (`subFlagLabel`).  A flag with neither name contributes no text
at all: the top-level loop leaves both the synopsis and the flag-table
accumulators untouched, and the subcommand flag loop leaves its
accumulator untouched. -/
theorem C4_flag_label_rule (l s v : String) (f : Flag) :
    (l = s →
      flagLabel (some l) (some s) = some (".Op Fl -" ++ l)
      ∧ subFlagLabel (some l) (some s) = some (".Fl -" ++ l))
    ∧ (l ≠ s →
      flagLabel (some l) (some s) = some (".Op Fl -" ++ l ++ " | -" ++ s)
      ∧ subFlagLabel (some l) (some s) =
          some (".Fl -" ++ l ++ " | -" ++ s))
    ∧ flagLabel (some v) none = some (".Op Fl -" ++ v)
    ∧ flagLabel none (some v) = some (".Op Fl -" ++ v)
    ∧ subFlagLabel (some v) none = some (".Fl -" ++ v)
    ∧ subFlagLabel none (some v) = some (".Fl -" ++ v)
    ∧ (f.long = none → f.short = none →
      (∀ rest synopsis flag_table,
        flagsLoop (f :: rest) synopsis flag_table =
          flagsLoop rest synopsis flag_table)
      ∧ (∀ rest acc, subFlagsLoop (f :: rest) acc = subFlagsLoop rest acc)) := by
  refine ⟨fun h => ?_, fun h => ?_, rfl, rfl, rfl, rfl, fun h1 h2 => ?_⟩
  · subst h
    rw [flagLabel, subFlagLabel, if_pos rfl, if_pos rfl]
    exact ⟨rfl, rfl⟩
  · rw [flagLabel, subFlagLabel, if_neg h, if_neg h]
    exact ⟨rfl, rfl⟩
  · have hline : flagLineOf f = none := by
      rw [flagLineOf, h1, h2]
      rfl
    have hsub : subFlagLineOf f = none := by
      rw [subFlagLineOf, h1, h2]
      rfl
    exact ⟨fun rest synopsis flag_table => by rw [flagsLoop, hline],
      fun rest acc => by rw [subFlagsLoop, hsub]⟩

/-- Witness for C4: a concrete identical pair, and the nameless flag
`Flag.new` contributing nothing to either accumulator. -/
theorem C4_witness :
    (flagLabel (some "a") (some "a") = some (".Op Fl -" ++ "a")
      ∧ subFlagLabel (some "a") (some "a") = some (".Fl -" ++ "a"))
    ∧ flagsLoop [Flag.new] ".Nm\n" "tbl" = flagsLoop [] ".Nm\n" "tbl"
    ∧ subFlagsLoop [Flag.new] "acc" = subFlagsLoop [] "acc" := by
  refine ⟨(C4_flag_label_rule "a" "a" "x" Flag.new).1 rfl, ?_, ?_⟩
  · exact ((C4_flag_label_rule "a" "a" "x" Flag.new).2.2.2.2.2.2 rfl rfl).1
      [] ".Nm\n" "tbl"
  · exact ((C4_flag_label_rule "a" "a" "x" Flag.new).2.2.2.2.2.2 rfl rfl).2
      [] "acc"

/-- C5: Argument suffix rule.  A flag with an arity gets the suffix
`" Ar "` followed by the explicit kind label of the arity if given, else
the long name of the flag, else its short name, else the generic `"ARGUMENT"`
fallback, with `" ..."` appended exactly when the arity is repeatable; a
flag with no arity gets no suffix.  The rendered flag line is the label
followed by this suffix, both at top level and inside a subcommand
item. -/
theorem C5_arg_suffix_rule (f : Flag) (lbl : String) :
    (∀ kind mult, f.args = some ⟨kind, mult⟩ →
      argSuffix f.args f.long f.short =
        " Ar " ++ kind.getD ((f.long.or f.short).getD "ARGUMENT")
          ++ (if mult then " ..." else ""))
    ∧ (f.args = none → argSuffix f.args f.long f.short = "")
    ∧ (flagLabel f.long f.short = some lbl →
      flagLineOf f = some (lbl ++ argSuffix f.args f.long f.short ++ "\n"))
    ∧ (subFlagLabel f.long f.short = some lbl → f.doc = none →
      subFlagLineOf f =
        some ("\n" ++ lbl ++ argSuffix f.args f.long f.short ++ "\n")) := by
  refine ⟨fun kind mult h => ?_, fun h => by rw [h]; rfl,
    fun h => by rw [flagLineOf, h], fun h hd => by rw [subFlagLineOf, h, hd]⟩
  rw [h]
  cases mult
  · cases kind <;> simp [argSuffix, Option.getD]
  · cases kind <;> simp [argSuffix, Option.getD]

/-- Witness for C5 at the two arities from the spec examples: explicit
kind `FILE` beats the long name `output`; absent kind falls back to the
long name `tag` and the repeat marker is appended. -/
theorem C5_witness :
    argSuffix (some ⟨some "FILE", false⟩) (some "output") none = " Ar FILE"
    ∧ argSuffix (some ⟨none, true⟩) (some "tag") none = " Ar tag ..."
    ∧ argSuffix none (some "output") none = ""
    ∧ flagLineOf ⟨some "output", none, some ⟨some "FILE", false⟩, none⟩ =
        some (".Op Fl -output" ++ " Ar FILE" ++ "\n") := by
  refine ⟨?_, ?_, ?_, ?_⟩
  · have h := (C5_arg_suffix_rule
      ⟨some "output", none, some ⟨some "FILE", false⟩, none⟩ "").1
      (some "FILE") false rfl
    simpa using h
  · have h := (C5_arg_suffix_rule
      ⟨some "tag", none, some ⟨none, true⟩, none⟩ "").1 none true rfl
    simpa using h
  · exact (C5_arg_suffix_rule ⟨some "output", none, none, none⟩ "").2.1 rfl
  · have h := (C5_arg_suffix_rule
      ⟨some "output", none, some ⟨some "FILE", false⟩, none⟩
      ".Op Fl -output").2.2.1 rfl
    simpa using h

/-- Counterexample for C6 as stated.  The claim asserts that wrapping any
string `s` in one layer of quotes and assigning stores exactly `s` "even
when s itself begins or ends with a double quote".  For `s = "a` (a string
that begins with a quote), assigning `""a"` stores `a`, not `"a`: the
setter strips ALL surrounding quote characters, not a single layer. -/
theorem C6_cex :
    (Flag.new.setLong ("\"" ++ "\"a" ++ "\"")).long = some "a"
    ∧ some ("a" : String) ≠ some ("\"a" : String) := by
  refine ⟨by decide, by decide⟩

/-- C6 (amended): every textual fluent setter stores the passed value with
ALL leading and trailing double-quote characters trimmed (Rust
`trim_matches('"')`); consequently assigning `"s"` stores exactly `s`
precisely when `s` itself neither begins nor ends with a double quote. -/
theorem C6_setters_trim_all_quotes (f : Flag) (c : Subcommand) (m : Manpage)
    (v s : String) :
    (f.setLong v).long = some (trimMatches '\"' v)
    ∧ (f.setShort v).short = some (trimMatches '\"' v)
    ∧ (f.setDoc v).doc = some (trimMatches '\"' v)
    ∧ (c.setDoc v).doc = some (trimMatches '\"' v)
    ∧ (m.setName v).name = trimMatches '\"' v
    ∧ (m.setDescription (some v)).description = some (trimMatches '\"' v)
    ∧ (m.setAuthor (some v)).author = some (trimMatches '\"' v)
    ∧ (m.setVersion (some v)).version = some (trimMatches '\"' v)
    ∧ (m.setLongDescription (some v)).long_description =
        some (trimMatches '\"' v)
    ∧ (noBoundaryQuote s = true →
        trimMatches '\"' ("\"" ++ s ++ "\"") = s) := by
  refine ⟨rfl, rfl, rfl, rfl, rfl, rfl, rfl, rfl, rfl, fun h => ?_⟩
  apply str_ext
  show trimMatchesL '\"' (("\"" ++ s ++ "\"").data) = s.data
  have hdata : ("\"" ++ s ++ "\"").data = '\"' :: (s.data ++ ['\"']) := by
    rw [str_data_append, str_data_append]
    rfl
  rw [hdata]
  unfold noBoundaryQuote at h
  rw [Bool.and_eq_true] at h
  refine trimMatchesL_wrap '\"' s.data (fun a ha => ?_) (fun a ha => ?_)
  · have h1 := h.1
    rw [ha] at h1
    simpa using h1
  · have h2 := h.2
    rw [ha] at h2
    simpa using h2

/-- Witness for C6: the quote-free string `me` survives a quoted
assignment round-trip exactly. -/
theorem C6_witness :
    trimMatches '\"' ("\"" ++ "me" ++ "\"") = "me" :=
  (C6_setters_trim_all_quotes Flag.new (Subcommand.new "s") Manpage.new
    "v" "me").2.2.2.2.2.2.2.2.2 (by decide)

/-- C7: `push_subcommand` converts the transient `Manpage` into a
`Subcommand` whose path is dropped (a `Subcommand` carries no path), whose
doc is the merge of the two description fields with the last assignment
winning (`long_description` if present, else `description`, else none),
and whose flag list is the flag list of the transient; the result is appended
at the end of the subcommand list, so insertion order is preserved.  The
hypotheses state that the description fields of the transient carry no
surrounding quotes, as guaranteed for every value stored through the
setters of the builder. -/
theorem C7_push_subcommand (m cmd : Manpage)
    (hd : ∀ v, cmd.description = some v → trimMatches '\"' v = v)
    (hl : ∀ v, cmd.long_description = some v → trimMatches '\"' v = v) :
    m.push_subcommand cmd =
      { m with subcommands := m.subcommands
          ++ [⟨cmd.name, none, cmd.flags,
               cmd.long_description.or cmd.description⟩] } := by
  rw [Manpage.push_subcommand]
  cases hdc : cmd.description with
  | none =>
    cases hlc : cmd.long_description with
    | none => rfl
    | some lv =>
      simp only [Subcommand.new, Subcommand.setDoc, Subcommand.setFlags,
        hl lv hlc, Option.or]
  | some dv =>
    cases hlc : cmd.long_description with
    | none =>
      simp only [Subcommand.new, Subcommand.setDoc, Subcommand.setFlags,
        hd dv hdc, Option.or]
    | some lv =>
      simp only [Subcommand.new, Subcommand.setDoc, Subcommand.setFlags,
        hl lv hlc, Option.or]

/-- Witness for C7: the long description wins, the path is gone, the flag
list is carried over, and the subcommand lands at the end of the list. -/
theorem C7_witness :
    Manpage.new.push_subcommand
      { Manpage.new with
        name := "sub"
        description := some "short text"
        long_description := some "long text"
        path := some "ignored"
        flags := [⟨some "a", none, none, none⟩] } =
      { Manpage.new with
        subcommands :=
          [⟨"sub", none, [⟨some "a", none, none, none⟩],
            some "long text"⟩] } := by
  have h := C7_push_subcommand Manpage.new
    { Manpage.new with
      name := "sub"
      description := some "short text"
      long_description := some "long text"
      path := some "ignored"
      flags := [⟨some "a", none, none, none⟩] }
    (fun v hv => by cases hv; decide) (fun v hv => by cases hv; decide)
  simpa using h

set_option maxRecDepth 4000 in
/-- Counterexample for C8 as stated.  `mBlocks` has a non-empty flag list
and a non-empty subcommand list, so both blocks are present, yet its
rendered body contains no two consecutive newline characters anywhere —
the two blocks are NOT separated by a blank line (only by a single line
break). -/
theorem C8_cex :
    mBlocks.flags ≠ [] ∧ mBlocks.subcommands ≠ []
    ∧ ¬ List.IsInfix ['\n', '\n'] (render mBlocks).data := by
  refine ⟨by decide, by decide, by decide⟩

/-- C8 (amended): the flags block and the subcommands block are each
wrapped in their own delimiters and entirely omitted when the
corresponding list is empty — a `Manpage` with zero flags and zero
subcommands renders to a bare newline, containing neither kind of block
delimiters — and when both blocks are present they are separated by a
single newline (not a blank line): the rendered body is the trimmed parts
joined by single `"\n"` separators, where the part before each separator
never ends in a newline and the part after never begins with one. -/
theorem C8_block_assembly (m : Manpage) :
    (m.flags = [] → m.subcommands = [] →
      render m = "\n"
      ∧ ¬ List.IsInfix (".Bl" : String).data (render m).data
      ∧ ¬ List.IsInfix (".El" : String).data (render m).data)
    ∧ (m.flags ≠ [] → m.subcommands ≠ [] →
      render m = trimStr (synopsisStr m) ++ "\n" ++ trimStr (flagTableStr m)
          ++ "\n" ++ trimStr (subcommandsStr m) ++ "\n"
      ∧ (∀ c, (trimStr (flagTableStr m)).data.getLast? = some c →
          c.isWhitespace = false)
      ∧ (∀ c, (trimStr (subcommandsStr m)).data.head? = some c →
          c.isWhitespace = false)) := by
  constructor
  · intro h1 h2
    have hf : m.flags.isEmpty = true := by rw [h1]; rfl
    have hs : m.subcommands.isEmpty = true := by rw [h2]; rfl
    have hr : render m = "\n" := by simp [render, hf, hs]
    refine ⟨hr, ?_, ?_⟩
    · rw [hr]; decide
    · rw [hr]; decide
  · intro h1 h2
    have hf : m.flags.isEmpty = false := by
      cases hc : m.flags with
      | nil => exact absurd hc h1
      | cons a l => rfl
    have hs : m.subcommands.isEmpty = false := by
      cases hc : m.subcommands with
      | nil => exact absurd hc h2
      | cons a l => rfl
    refine ⟨by simp [render, hf, hs], fun c hc => ?_, fun c hc => ?_⟩
    · exact getLast?_trimL_not _ c hc
    · exact head?_trimL_not _ c hc

/-- Witness for C8: the empty page renders to a bare newline without block
delimiters, and `mBlocks` renders as the three trimmed parts joined by
single newlines. -/
theorem C8_witness :
    (render Manpage.new = "\n"
      ∧ ¬ List.IsInfix (".Bl" : String).data (render Manpage.new).data
      ∧ ¬ List.IsInfix (".El" : String).data (render Manpage.new).data)
    ∧ render mBlocks = trimStr (synopsisStr mBlocks) ++ "\n"
        ++ trimStr (flagTableStr mBlocks) ++ "\n"
        ++ trimStr (subcommandsStr mBlocks) ++ "\n" := by
  constructor
  · exact (C8_block_assembly Manpage.new).1 rfl rfl
  · exact ((C8_block_assembly mBlocks).2 (by decide) (by decide)).1

/-- C9: Renderer and finalizer noninterference on the auxiliary maps.  Two
pages that agree on every field except `short_flags` and `long_flags`
render to the identical markup string and produce the identical
finalization log for every file system: the maps are never consulted. -/
theorem C9_aux_maps_noninterference (m₁ m₂ : Manpage)
    (fs : String → FSOutcome)
    (h1 : m₁.name = m₂.name) (h2 : m₁.description = m₂.description)
    (h3 : m₁.long_description = m₂.long_description)
    (h4 : m₁.author = m₂.author) (h5 : m₁.version = m₂.version)
    (h6 : m₁.path = m₂.path) (h7 : m₁.header_path = m₂.header_path)
    (h8 : m₁.footer_path = m₂.footer_path) (h9 : m₁.flags = m₂.flags)
    (h10 : m₁.subcommands = m₂.subcommands) :
    render m₁ = render m₂ ∧ dropManpage fs m₁ = dropManpage fs m₂ := by
  cases m₁
  cases m₂
  simp only at h1 h2 h3 h4 h5 h6 h7 h8 h9 h10
  subst h1 h2 h3 h4 h5 h6 h7 h8 h9 h10
  exact ⟨rfl, rfl⟩

/-- Witness for C9: two concrete pages differing only in the auxiliary
maps render identically and finalize identically. -/
theorem C9_witness :
    render mAllMaps = render mAll
    ∧ dropManpage (fun _ => FSOutcome.ok) mAllMaps
      = dropManpage (fun _ => FSOutcome.ok) mAll :=
  C9_aux_maps_noninterference mAllMaps mAll (fun _ => FSOutcome.ok)
    rfl rfl rfl rfl rfl rfl rfl rfl rfl rfl

/-- C10: a flag that has only a short name is rendered with exactly the
same long-form (double-dash `Fl -`) markup as a flag carrying that name as
its long name: for every name `v` the two flags produce identical
synopsis, flag-table, and subcommand-line output, and the short-only
labels are the same `.Op Fl -`/`.Fl -` forms as the long-only ones —
short names are never given single-dash markup. -/
theorem C10_short_rendered_as_long (v : String) (args : Option TakesValue)
    (doc : Option String) :
    flagLineOf ⟨some v, none, args, doc⟩ = flagLineOf ⟨none, some v, args, doc⟩
    ∧ subFlagLineOf ⟨some v, none, args, doc⟩
      = subFlagLineOf ⟨none, some v, args, doc⟩
    ∧ (∀ rest synopsis flag_table,
        flagsLoop (⟨some v, none, args, doc⟩ :: rest) synopsis flag_table
          = flagsLoop (⟨none, some v, args, doc⟩ :: rest) synopsis flag_table)
    ∧ (∀ rest acc,
        subFlagsLoop (⟨some v, none, args, doc⟩ :: rest) acc
          = subFlagsLoop (⟨none, some v, args, doc⟩ :: rest) acc)
    ∧ flagLabel (some v) none = some (".Op Fl -" ++ v)
    ∧ flagLabel none (some v) = some (".Op Fl -" ++ v)
    ∧ subFlagLabel (some v) none = some (".Fl -" ++ v)
    ∧ subFlagLabel none (some v) = some (".Fl -" ++ v) := by
  have hsuf : argSuffix args (some v) none = argSuffix args none (some v) := by
    rcases args with _ | ⟨k, b⟩
    · rfl
    · rcases k with _ | k <;> cases b <;> rfl
  have hline : flagLineOf ⟨some v, none, args, doc⟩
      = flagLineOf ⟨none, some v, args, doc⟩ := by
    simp only [flagLineOf, flagLabel, hsuf]
  have hsubline : subFlagLineOf ⟨some v, none, args, doc⟩
      = subFlagLineOf ⟨none, some v, args, doc⟩ := by
    simp only [subFlagLineOf, subFlagLabel, hsuf]
  refine ⟨hline, hsubline, fun rest synopsis flag_table => ?_,
    fun rest acc => ?_, rfl, rfl, rfl, rfl⟩
  · rw [flagsLoop, flagsLoop, hline]
  · rw [subFlagsLoop, subFlagsLoop, hsubline]

end StructoptManpage
